import Mathlib

/-!
Verification development for the "ask_youtube" repository: a chat-with-a-video
application whose frontend consumes a line-delimited SSE event protocol
(`data: {...}` lines carrying `token` / `sources` / `end` / `error` events),
accumulates streamed tokens into an assistant message, maps persisted history
into the UI model, and manages thread state through a pure reducer.

Strings from the JavaScript sources are modelled as `List Char`; the stateful
stream loop is modelled by explicit recursion over the list of received text
chunks; `JSON.parse` (a JS builtin, external to the repository) is modelled as
a parameter `p : List Char → Option SEvent`, with a concrete instance
`parseEventJson` covering exactly the wire-protocol event shapes of the spec.
-/

/- ------------------------------------------------------------------ -/
/- SSE stream model: `handleSSEStream` (src/unnamed/part_005, lines 16-95) -/
/- ------------------------------------------------------------------ -/

/-- Source chunk payload of a `sources` event
(`Array<{ text: string; start_time?: number; end_time?: number }>`). -/
structure SourceChunk where
  text : List Char
  start_time : Option ℚ
  end_time : Option ℚ
deriving DecidableEq

/-- Parsed stream event (`StreamEvent`), one constructor per `type` the
switch in `handleSSEStream` can receive; `other` stands for a JSON object
whose `type` matches none of the four cases (the switch then does nothing). -/
inductive SEvent where
  | tok (content : List Char)
  | sources (chunks : List SourceChunk)
  | stop (messageId : Int)
  | err (message : List Char)
  | other
deriving DecidableEq

/-- One observed callback invocation of `StreamCallbacks`. -/
inductive CB where
  | onToken (t : List Char)
  | onSources (cs : List SourceChunk)
  | onComplete (id : Int)
  | onError (msg : List Char)
deriving DecidableEq

/-- The two callbacks after which `handleSSEStream` returns (`end`/`error`
cases of the switch execute `return` immediately after the callback). -/
def isTerminalCB : CB → Bool
  | CB.onComplete _ => true
  | CB.onError _ => true
  | _ => false

/-- Decode of a single complete line, mirroring the body of the `for` loop:
only lines starting with `data: ` are considered, the prefix is sliced off,
the sentinel `[DONE]` is skipped, and the rest goes through `JSON.parse`
(the parameter `p`; a parse failure is `none` and is only logged). -/
def decodeLine (p : List Char → Option SEvent) (line : List Char) : Option SEvent :=
  if ("data: ".toList).isPrefixOf line then
    let jsonStr := line.drop 6
    if jsonStr = ("[DONE]".toList) then none else p jsonStr
  else none

/-- Callback produced by the `switch (event.type)` for one decoded event:
`token` fires `onToken`, `sources` fires `onSources`, `end` fires
`onComplete(event.message_id)`, `error` fires `onError(new Error(event.message))`,
any other type falls through with no callback. -/
def cbOfEvent : SEvent → Option CB
  | SEvent.tok c => some (CB.onToken c)
  | SEvent.sources cs => some (CB.onSources cs)
  | SEvent.stop id => some (CB.onComplete id)
  | SEvent.err m => some (CB.onError m)
  | SEvent.other => none

/-- Callback (if any) triggered by one complete line. -/
def lineCB (p : List Char → Option SEvent) (line : List Char) : Option CB :=
  (decodeLine p line).bind cbOfEvent

/-- Processing of the complete lines extracted from the buffer in one
iteration of the `while` loop: each line fires its callback; the `end` and
`error` cases `return` from the whole function, so processing stops there.
Returns the emitted callbacks and whether the function returned early. -/
def processLines (p : List Char → Option SEvent) : List (List Char) → List CB × Bool
  | [] => ([], false)
  | line :: rest =>
    match lineCB p line with
    | none => processLines p rest
    | some cb =>
      if isTerminalCB cb then ([cb], true)
      else
        let r := processLines p rest
        (cb :: r.1, r.2)

/-- JS `buffer.split("\n")`: splits into lines, always nonempty, keeps a
final (possibly empty) segment after the last newline. -/
def splitLines : List Char → List (List Char)
  | [] => [[]]
  | c :: cs =>
    if c = '\n' then [] :: splitLines cs
    else
      match splitLines cs with
      | [] => [[c]]
      | l :: ls => (c :: l) :: ls

/-- The `while (true)` read loop of `handleSSEStream`: each received chunk is
appended to the buffer, the buffer is split on newlines, the final segment is
kept as the new buffer (`buffer = lines.pop() || ""`), and the complete lines
are processed; a terminal event returns from the function, and exhaustion of
the chunks (`done`) breaks the loop without flushing the buffer. -/
def runChunks (p : List Char → Option SEvent) (buffer : List Char) :
    List (List Char) → List CB × Bool
  | [] => ([], false)
  | chunk :: rest =>
    let lines := splitLines (buffer ++ chunk)
    let r := processLines p lines.dropLast
    if r.2 then r
    else
      let r2 := runChunks p (lines.getLastD []) rest
      (r.1 ++ r2.1, r2.2)

/-- Processing of a whole stream presented as a single chunk. -/
def processStream (p : List Char → Option SEvent) (s : List Char) : List CB × Bool :=
  processLines p ((splitLines s).dropLast)

/-- Truncation of a callback stream at its first terminal element: everything
before the first `onComplete`/`onError` is kept, the terminal callback itself
is kept exactly once, and nothing after it survives. This is the behaviour
the spec prescribes for the stream consumer. -/
def truncAtTerminal : List CB → List CB × Bool
  | [] => ([], false)
  | cb :: rest =>
    if isTerminalCB cb then ([cb], true)
    else
      let r := truncAtTerminal rest
      (cb :: r.1, r.2)

/- ------------------------------------------------------------------ -/
/- Wire-protocol JSON shapes (spec section 6), a concrete instance of  -/
/- the JSON.parse parameter                                            -/
/- ------------------------------------------------------------------ -/

/-- Content that needs no JSON string escaping. -/
def jsonSafe (l : List Char) : Bool :=
  !(l.contains '"') && !(l.contains '\\')

/-- Strips a literal head `pre` and tail `suf` off `l`, returning the middle. -/
def stripWrap (pre suf l : List Char) : Option (List Char) :=
  if pre.isPrefixOf l && suf.isSuffixOf (l.drop pre.length)
      && pre.length + suf.length ≤ l.length then
    some ((l.drop pre.length).take ((l.drop pre.length).length - suf.length))
  else none

/-- Decimal value of a digit list. -/
def natOfDigits : List Char → Nat
  | [] => 0
  | c :: cs => (c.toNat - 48) * 10 ^ cs.length + natOfDigits cs

/-- Models `JSON.parse` restricted to the exact wire-protocol event shapes of
the spec (no escape sequences inside string payloads):
`{"type": "token", "content": "<text>"}`, `{"type": "sources", "chunks": []}`,
`{"type": "end", "message_id": <int>}`, `{"type": "error", "message": "<text>"}`.
Anything else is reported as a parse failure. -/
def parseEventJson (l : List Char) : Option SEvent :=
  match stripWrap ("\x7b\"type\": \"token\", \"content\": \"".toList) ("\"\x7d".toList) l with
  | some c => if jsonSafe c then some (SEvent.tok c) else none
  | none =>
    match stripWrap ("\x7b\"type\": \"error\", \"message\": \"".toList) ("\"\x7d".toList) l with
    | some m => if jsonSafe m then some (SEvent.err m) else none
    | none =>
      match stripWrap ("\x7b\"type\": \"end\", \"message_id\": ".toList) ("\x7d".toList) l with
      | some d =>
        if d ≠ [] && d.all Char.isDigit then some (SEvent.stop (natOfDigits d))
        else none
      | none =>
        if l = ("\x7b\"type\": \"sources\", \"chunks\": []\x7d".toList) then
          some (SEvent.sources [])
        else none

/- ------------------------------------------------------------------ -/
/- Error taxonomy at the client boundary (src/frontend/lib/errors.ts)  -/
/- ------------------------------------------------------------------ -/

/-- Error values that can reach `getErrorMessage`: an `ApiError` (message and
optional numeric `statusCode`), a `TypeError`, any other `Error`, or a thrown
non-`Error` value. -/
inductive JsError where
  | apiError (message : List Char) (statusCode : Option Int)
  | typeError (message : List Char)
  | otherError (message : List Char)
  | nonError
deriving DecidableEq

/-- Fixed user-facing message `errorMessages.invalidUrl`. -/
def invalidUrlMsg : List Char :=
  ("Hmm, that doesn\x27t look like a valid YouTube URL. Could you try again? Example: https://www.youtube.com/watch?v=xxxxx".toList)

/-- Fixed user-facing message `errorMessages.noTranscript`. -/
def noTranscriptMsg : List Char :=
  ("Unfortunately, this video doesn\x27t have captions available. I need captions to chat about the content. Try another video?".toList)

/-- Fixed user-facing message `errorMessages.processingFailed`. -/
def processingFailedMsg : List Char :=
  ("I had trouble processing that video. This could be temporary. Want to try again?".toList)

/-- Fixed user-facing message `errorMessages.streamingError`. -/
def streamingErrorMsg : List Char :=
  ("Oops! My response got interrupted. Let me try that again.".toList)

/-- Fixed user-facing message `errorMessages.networkError`. -/
def networkErrorMsg : List Char :=
  ("Unable to connect to the server. Please check your connection and try again.".toList)

/-- Fixed user-facing message `errorMessages.unknownError`. -/
def unknownErrorMsg : List Char :=
  ("Something went wrong. Please try again.".toList)

/-- Fixed user-facing message `errorMessages.threadNotFound`. -/
def threadNotFoundMsg : List Char :=
  ("This chat thread could not be found.".toList)

/-- Fixed user-facing message `errorMessages.videoTooLong`. -/
def videoTooLongMsg : List Char :=
  ("Video is too long. Maximum allowed duration is 20 minutes.".toList)

/-- Fixed user-facing message `errorMessages.rateLimited`. -/
def rateLimitedMsg : List Char :=
  ("Too many requests. Please wait a moment and try again.".toList)

/-- The `errorMessages` table as a list of the fixed externally-visible texts. -/
def errorMessagesList : List (List Char) :=
  [invalidUrlMsg, noTranscriptMsg, processingFailedMsg, streamingErrorMsg,
   networkErrorMsg, unknownErrorMsg, threadNotFoundMsg, videoTooLongMsg,
   rateLimitedMsg]

/-- JS `haystack.includes(needle)`: the needle occurs contiguously somewhere. -/
def hasSub (needle : List Char) : List Char → Bool
  | [] => needle.isEmpty
  | c :: cs => needle.isPrefixOf (c :: cs) || hasSub needle cs

/-- Translation of `getErrorMessage` (errors.ts lines 36-65): `ApiError`s are
switched on `statusCode` with a fallback to `error.message || unknownError`;
`TypeError`s whose message mentions `fetch` map to the network message; other
`Error`s surface their own message; anything else maps to the unknown-error
message. -/
def getErrorMessage : JsError → List Char
  | JsError.apiError message statusCode =>
    match statusCode with
    | some 400 => invalidUrlMsg
    | some 404 => threadNotFoundMsg
    | some 413 => videoTooLongMsg
    | some 422 => noTranscriptMsg
    | some 429 => rateLimitedMsg
    | some 500 => processingFailedMsg
    | _ => if message = [] then unknownErrorMsg else message
  | JsError.typeError message =>
    if hasSub ("fetch".toList) message then networkErrorMsg else message
  | JsError.otherError message => message
  | JsError.nonError => unknownErrorMsg

/- ------------------------------------------------------------------ -/
/- Conversation turn in the UI:                                        -/
/- `ChatContainer.handleSendMessage` + `displayMessages`               -/
/- (src/frontend/components/chat/ChatContainer.tsx, lines 71-158)      -/
/- ------------------------------------------------------------------ -/

/-- UI-side message sender (`"user" | "ai"`). -/
inductive Sender where
  | user
  | ai
deriving DecidableEq

/-- Local UI message of `ChatContainer` (`Message`): client-generated string
id, sender, content, and optional metadata whose only relevant field here is
the `{ error: true }` flag (`some true`); the wall-clock `created_at` field
is omitted from the model. -/
structure UIMessage where
  message_id : List Char
  sender : Sender
  content : List Char
  metadata : Option Bool
deriving DecidableEq

/-- React state of `ChatContainer` touched during one `handleSendMessage`
turn, together with the local accumulator `aiContent`. -/
structure TurnState where
  aiContent : List Char
  streamingContent : List Char
  isStreaming : Bool
  error : Option (List Char)
  messages : List UIMessage
deriving DecidableEq

/-- JS `String.prototype.trim`: whitespace stripped from both ends. -/
def jsTrim (l : List Char) : List Char :=
  ((l.dropWhile Char.isWhitespace).reverse.dropWhile Char.isWhitespace).reverse

/-- Effect of one stream callback on the `ChatContainer` state, translated
from the callback object passed to `handleSSEStream`: `onToken` grows
`aiContent` and mirrors it into `streamingContent`; `onComplete` stops
streaming, clears `streamingContent` and appends the assistant message only
when the accumulated content is nonempty after trimming; `onError` records
`getErrorMessage(err)` and stops streaming (leaving `streamingContent` as it
was); a `sources` callback is not supplied by `ChatContainer`, so it is a
no-op. -/
def chatStep (aiMessageId : List Char) (st : TurnState) (cb : CB) : TurnState :=
  match cb with
  | CB.onToken t =>
    { st with aiContent := st.aiContent ++ t, streamingContent := st.aiContent ++ t }
  | CB.onSources _ => st
  | CB.onComplete _ =>
    if jsTrim st.aiContent ≠ [] then
      { st with isStreaming := false, streamingContent := [],
                messages := st.messages ++
                  [{ message_id := aiMessageId, sender := Sender.ai,
                     content := st.aiContent, metadata := none }] }
    else
      { st with isStreaming := false, streamingContent := [] }
  | CB.onError m =>
    { st with error := some (getErrorMessage (JsError.otherError m)),
              isStreaming := false }

/-- One `handleSendMessage(content)` turn observed through the callback trace
`trace`: the user message is appended optimistically (with fresh id
`userMessageId`), streaming state is reset, and then each callback fired by
`handleSSEStream` is applied in order. -/
def handleSendMessageRun (ms : List UIMessage) (userMessageId aiMessageId content : List Char)
    (trace : List CB) : TurnState :=
  trace.foldl (chatStep aiMessageId)
    { aiContent := []
      streamingContent := []
      isStreaming := true
      error := none
      messages := ms ++ [{ message_id := userMessageId, sender := Sender.user,
                           content := content, metadata := none }] }

/-- The `displayMessages` expression of `ChatContainer` (lines 147-158): while
streaming, or after an error, a transient assistant bubble with the streamed
content is shown after the committed messages, carrying an `{ error: true }`
metadata flag exactly when an error occurred. -/
def displayMessages (st : TurnState) : List UIMessage :=
  if (st.isStreaming || st.error.isSome) && !st.streamingContent.isEmpty then
    st.messages ++
      [{ message_id := ("streaming-message".toList), sender := Sender.ai,
         content := st.streamingContent,
         metadata := if st.error.isSome then some true else none }]
  else st.messages

/- ------------------------------------------------------------------ -/
/- History read model: `loadMessages` mapping                          -/
/- (src/unnamed/part_004, lines 36-53) over the response of            -/
/- GET /threads/id/messages (history/route.ts passes the backend body  -/
/- through unchanged)                                                  -/
/- ------------------------------------------------------------------ -/

/-- One element of the `messages` array of the history response
(`MessageResponse`); `role` is kept as a raw string so that the mapping of
unexpected roles is observable; the metadata payload type is abstract. -/
structure MessageResponse (μ : Type) where
  message_id : Int
  role : List Char
  content : List Char
  metadata : Option μ
  created_at : List Char
deriving DecidableEq

/-- UI message produced from a history entry by `loadMessages`. -/
structure HistMessage (μ : Type) where
  message_id : Int
  sender : Sender
  content : List Char
  metadata : Option μ
  created_at : List Char
deriving DecidableEq

/-- Translation of the mapping inside `loadMessages`: element-wise over
`response.messages`, role `"human"` becomes sender `user` and every other
role becomes sender `ai`; id, content, metadata (`?? undefined`) and
timestamp are carried over unchanged. -/
def loadMessagesMap {μ : Type} (msgs : List (MessageResponse μ)) : List (HistMessage μ) :=
  msgs.map (fun m =>
    { message_id := m.message_id
      sender := if m.role = ("human".toList) then Sender.user else Sender.ai
      content := m.content
      metadata := m.metadata
      created_at := m.created_at })

/- ------------------------------------------------------------------ -/
/- Thread list reducer                                                 -/
/- (src/frontend/components/providers/ChatProvider.tsx, lines 14-73)   -/
/- ------------------------------------------------------------------ -/

/-- Thread record of the UI state (`Thread` in lib/types.ts). -/
structure Thread where
  thread_id : List Char
  video_id : List Char
  title : Option (List Char)
  summary : Option (List Char)
  created_at : List Char
deriving DecidableEq

/-- The `ChatState` managed by `ChatProvider`. -/
structure ChatState where
  threads : List Thread
  activeThreadId : Option (List Char)
  isSidebarOpen : Bool
  isProcessing : Bool
deriving DecidableEq

/-- Action type of `chatReducer` (`ChatAction`). -/
inductive ChatAction where
  | SET_ACTIVE_THREAD (threadId : Option (List Char))
  | ADD_THREAD (thread : Thread)
  | REMOVE_THREAD (threadId : List Char)
  | TOGGLE_SIDEBAR
  | SET_SIDEBAR_OPEN (isOpen : Bool)
  | SET_PROCESSING (isProcessing : Bool)
  | SET_THREADS (threads : List Thread)
deriving DecidableEq

/-- The `initialState` of `ChatProvider`. -/
def initialChatState : ChatState :=
  { threads := [], activeThreadId := none, isSidebarOpen := false, isProcessing := false }

/-- Translation of `chatReducer`: `ADD_THREAD` prepends unless a thread with
the same id already exists; `REMOVE_THREAD` filters the list and resets
`activeThreadId` to `null` only when it pointed at the removed thread;
`SET_THREADS` replaces the list wholesale. -/
def chatReducer (state : ChatState) (action : ChatAction) : ChatState :=
  match action with
  | ChatAction.SET_ACTIVE_THREAD threadId => { state with activeThreadId := threadId }
  | ChatAction.ADD_THREAD thread =>
    if state.threads.any (fun t => t.thread_id = thread.thread_id) then state
    else { state with threads := thread :: state.threads }
  | ChatAction.REMOVE_THREAD threadId =>
    { state with
        threads := state.threads.filter (fun t => t.thread_id ≠ threadId)
        activeThreadId :=
          if state.activeThreadId = some threadId then none else state.activeThreadId }
  | ChatAction.TOGGLE_SIDEBAR => { state with isSidebarOpen := !state.isSidebarOpen }
  | ChatAction.SET_SIDEBAR_OPEN isOpen => { state with isSidebarOpen := isOpen }
  | ChatAction.SET_PROCESSING isProcessing => { state with isProcessing := isProcessing }
  | ChatAction.SET_THREADS threads => { state with threads := threads }

/- ------------------------------------------------------------------ -/
/- Conversation State Store (backend implementation absent from src/;  -/
/- modelled from the spec, sections 3 and 4.4)                         -/
/- ------------------------------------------------------------------ -/

/-- Stored message of one conversation, identified by its per-conversation
sequence number (spec section 3, Message identity). -/
structure StoredMessage where
  seq : Nat
  role : List Char
  content : List Char
deriving DecidableEq

/-- One `append_message` request: target conversation, role and content. -/
structure AppendOp where
  cid : List Char
  role : List Char
  content : List Char
deriving DecidableEq

/-- Conversation State Store: the message log of each conversation id. -/
def Store : Type := List Char → List StoredMessage

/-- The empty store. -/
def emptyStore : Store := fun _ => []

/-- Modelled from the spec: `append_message(conversation_id, role, content,
metadata) -> Message` of section 4.4 — an atomic append that assigns the next
per-conversation sequence number; the backend implementation is not under
src/ (only the design document src/backend/gemini.md and the frontend types
describe it). Appends at the end of the target conversation's log with
sequence number equal to the current log length. -/
def append_message (s : Store) (op : AppendOp) : Store :=
  fun c =>
    if c = op.cid then
      s op.cid ++ [{ seq := (s op.cid).length, role := op.role, content := op.content }]
    else s c

/-- A serialization of `append_message` calls (any interleaving of the K
concurrent callers of the spec, per-conversation writes being serialized)
applied to the empty store. -/
def applyOps (ops : List AppendOp) : Store :=
  ops.foldl append_message emptyStore

/- ------------------------------------------------------------------ -/
/- Vector Retriever ranking (backend implementation absent from src/;  -/
/- modelled from the spec, section 4.3)                                -/
/- ------------------------------------------------------------------ -/

/-- A transcript fragment together with its similarity score for the current
query; cosine similarity is modelled over the rationals. -/
structure ScoredFrag where
  chunk_index : Nat
  score : ℚ
deriving DecidableEq

/-- Ranking order of retrieval results: higher similarity first, ties broken
by ascending `chunk_index` (spec section 4.3). -/
def rankR (a b : ScoredFrag) : Prop :=
  b.score < a.score ∨ (a.score = b.score ∧ a.chunk_index ≤ b.chunk_index)

instance : DecidableRel rankR := fun a b => by
  unfold rankR
  infer_instance

instance : IsTotal ScoredFrag rankR where
  total a b := by
    unfold rankR
    rcases lt_trichotomy a.score b.score with h | h | h
    · exact Or.inr (Or.inl h)
    · rcases Nat.le_total a.chunk_index b.chunk_index with hc | hc
      · exact Or.inl (Or.inr ⟨h, hc⟩)
      · exact Or.inr (Or.inr ⟨h.symm, hc⟩)
    · exact Or.inl (Or.inl h)

instance : IsTrans ScoredFrag rankR where
  trans a b c hab hbc := by
    unfold rankR at *
    rcases hab with h1 | ⟨h1, h1c⟩
    · rcases hbc with h2 | ⟨h2, _⟩
      · exact Or.inl (h2.trans h1)
      · exact Or.inl (h2 ▸ h1)
    · rcases hbc with h2 | ⟨h2, h2c⟩
      · exact Or.inl (h1 ▸ h2)
      · exact Or.inr ⟨h1.trans h2, h1c.trans h2c⟩

/-- Modelled from the spec: `query(video_ids, query_text, k) -> ranked
sequence of (Fragment, similarity_score)` of section 4.3 — the scored
fragments are ordered by descending similarity with ties broken by ascending
`chunk_index`, and the top `k` are returned; the ChromaDB-backed retriever
itself is not under src/ (only the design document src/backend/gemini.md
describes it). -/
def retrieveTopK (k : Nat) (frags : List ScoredFrag) : List ScoredFrag :=
  (List.insertionSort rankR frags).take k

/-- Retrieval with the default `k = 5` of the spec (section 4.3) and of the
design document's `n_results=5`. -/
def retrieveDefault (frags : List ScoredFrag) : List ScoredFrag :=
  retrieveTopK 5 frags

/- ------------------------------------------------------------------ -/
/- YouTube URL validation and id extraction                            -/
/- (src/frontend/lib/config.ts, lines 10-29)                           -/
/- ------------------------------------------------------------------ -/

/-- JS regex class `[\w-]`: ASCII letters, digits, underscore or hyphen. -/
def isWordDash (c : Char) : Bool :=
  c.isAlpha || c.isDigit || c = '_' || c = '-'

/-- First URL marker alternative `youtube.com/watch?v=`. -/
def watchMarker : List Char := ("youtube.com/watch?v=".toList)

/-- Second URL marker alternative `youtu.be/`. -/
def shortMarker : List Char := ("youtu.be/".toList)

/-- Third URL marker alternative `youtube.com/embed/`. -/
def embedMarker : List Char := ("youtube.com/embed/".toList)

/-- Match of the alternation `youtube.com\/watch\?v=|youtu\.be\/|youtube\.com\/embed\/`
at the head of `l`, returning the remainder after the marker; the three
literals pairwise disagree before any common length, so at most one
alternative can match at a given position. -/
def markerAt (l : List Char) : Option (List Char) :=
  if watchMarker.isPrefixOf l then some (l.drop watchMarker.length)
  else if shortMarker.isPrefixOf l then some (l.drop shortMarker.length)
  else if embedMarker.isPrefixOf l then some (l.drop embedMarker.length)
  else none

/-- Translation of `YOUTUBE_URL_REGEX.test(url)` with the anchored pattern
`^(https?:\/\/)?(www\.)?(marker)[\w-]+`: the optional scheme and `www.`
groups are consumed greedily when present (no alternative can succeed
without consuming them, since the markers start with `y`), then a marker
must follow with at least one `[\w-]` character after it. -/
def isValidYouTubeUrl (url : List Char) : Bool :=
  let r1 :=
    if ("https://".toList).isPrefixOf url then url.drop 8
    else if ("http://".toList).isPrefixOf url then url.drop 7
    else url
  let r2 := if ("www.".toList).isPrefixOf r1 then r1.drop 4 else r1
  match markerAt r2 with
  | some (c :: _) => isWordDash c
  | some [] => false
  | none => false

/-- Translation of `extractVideoId` (config.ts lines 18-29): the unanchored
pattern `(?:marker)([\w-]+)` is tried at each position from the left, as the
JS regex engine does; at the first position where a marker is followed by at
least one `[\w-]` character, the maximal `[\w-]` run is the captured video
id; absent any such position the result is `null`. -/
def extractVideoId : List Char → Option (List Char)
  | [] => none
  | c :: cs =>
    match markerAt (c :: cs) with
    | some rest =>
      let vid := rest.takeWhile isWordDash
      if vid = [] then extractVideoId cs else some vid
    | none => extractVideoId cs

/- ------------------------------------------------------------------ -/
/- Helper definitions and concrete fixtures                            -/
/- ------------------------------------------------------------------ -/

/-- Prepends `x` to the first segment of a line decomposition (the shape of
`splitLines (x ++ b)` when `x` contains no newline). -/
def glue (x : List Char) : List (List Char) → List (List Char)
  | [] => [x]
  | y :: ys => (x ++ y) :: ys

/-- First received chunk of the interrupted-generation scenario: a complete
`token` event line carrying `"The "`. -/
def c3chunkA : List Char :=
  ("data: \x7b\"type\": \"token\", \"content\": \"The \"\x7d\n".toList)

/-- Second received chunk of the interrupted-generation scenario: a `token`
event line carrying `"video "` followed by a terminal `error` event line. -/
def c3chunkB : List Char :=
  ("data: \x7b\"type\": \"token\", \"content\": \"video \"\x7d\ndata: \x7b\"type\": \"error\", \"message\": \"interrupted\"\x7d\n".toList)

/-- A small two-event SSE stream (one token, then the terminal `end` event). -/
def sseSampleStream : List Char :=
  ("data: \x7b\"type\": \"token\", \"content\": \"Hi\"\x7d\ndata: \x7b\"type\": \"end\", \"message_id\": 7\x7d\n".toList)

/-- Sample history response payload (metadata modelled by `Nat`). -/
def hmsgs : List (MessageResponse Nat) :=
  [{ message_id := 0, role := ("human".toList), content := ("hi".toList),
     metadata := none, created_at := ("t0".toList) },
   { message_id := 1, role := ("ai".toList), content := ("yo".toList),
     metadata := some 3, created_at := ("t1".toList) }]

/-- Sample serialization of `append_message` calls: two conversations `a`
and `b` interleaved. -/
def opsSample : List AppendOp :=
  [{ cid := ("a".toList), role := ("human".toList), content := ("hi".toList) },
   { cid := ("b".toList), role := ("human".toList), content := ("yo".toList) },
   { cid := ("a".toList), role := ("ai".toList), content := ("ok".toList) }]

/-- Sample scored fragments with a similarity tie between chunks 2 and 3. -/
def fragsSample : List ScoredFrag :=
  [{ chunk_index := 0, score := 1 }, { chunk_index := 3, score := 2 },
   { chunk_index := 1, score := 1 }, { chunk_index := 2, score := 2 }]

/-- Sample thread record. -/
def thSample : Thread :=
  { thread_id := ("t1".toList), video_id := ("v1".toList), title := none,
    summary := none, created_at := ("t".toList) }

/- ------------------------------------------------------------------ -/
/- Lemmas about the SSE stream model                                   -/
/- ------------------------------------------------------------------ -/

theorem splitLines_ne_nil (l : List Char) : splitLines l ≠ [] := by
  induction l with
  | nil => simp [splitLines]
  | cons c cs ih =>
    simp only [splitLines]
    split
    · simp
    · split <;> simp

theorem mem_splitLines_no_newline {l x : List Char} (hx : x ∈ splitLines l) : '\n' ∉ x := by
  induction l generalizing x with
  | nil =>
    simp [splitLines] at hx
    subst hx
    simp
  | cons c cs ih =>
    simp only [splitLines] at hx
    by_cases h : c = '\n'
    · rw [if_pos h] at hx
      rcases List.mem_cons.mp hx with rfl | hx2
      · simp
      · exact ih hx2
    · rw [if_neg h] at hx
      rcases hsp : splitLines cs with _ | ⟨y, ys⟩
      · exact absurd hsp (splitLines_ne_nil cs)
      · rw [hsp] at hx
        rcases List.mem_cons.mp hx with rfl | hx2
        · have hy : '\n' ∉ y := ih (by rw [hsp]; exact List.mem_cons_self y ys)
          intro hmem
          rcases List.mem_cons.mp hmem with h1 | h1
          · exact h h1.symm
          · exact hy h1
        · exact ih (by rw [hsp]; exact List.mem_cons_of_mem y hx2)

theorem splitLines_eq_single {l : List Char} (h : '\n' ∉ l) : splitLines l = [l] := by
  induction l with
  | nil => simp [splitLines]
  | cons c cs ih =>
    have hc : ¬ c = '\n' := by
      intro hh
      exact h (by rw [hh]; exact List.mem_cons_self _ _)
    have hcs : '\n' ∉ cs := fun hm => h (List.mem_cons_of_mem _ hm)
    simp only [splitLines]
    rw [if_neg hc, ih hcs]

theorem getLastD_cons₂ {α : Type} (x y : α) (ys : List α) (d : α) :
    (x :: y :: ys).getLastD d = (y :: ys).getLastD d := by
  simp [List.getLastD_eq_getLast?, List.getLast?_cons_cons]

theorem glue_ne_nil (x : List Char) (l : List (List Char)) : glue x l ≠ [] := by
  cases l <;> simp [glue]

theorem getLastD_mem {α : Type} {l : List α} (h : l ≠ []) (d : α) : l.getLastD d ∈ l := by
  induction l with
  | nil => exact absurd rfl h
  | cons a l ih =>
    rcases l with _ | ⟨b, bs⟩
    · simp [List.getLastD]
    · rw [getLastD_cons₂]
      exact List.mem_cons_of_mem a (ih (by simp))

theorem splitLines_append (a b : List Char) :
    splitLines (a ++ b) =
      (splitLines a).dropLast ++ glue ((splitLines a).getLastD []) (splitLines b) := by
  induction a with
  | nil =>
    rcases h : splitLines b with _ | ⟨y, ys⟩
    · exact absurd h (splitLines_ne_nil b)
    · simp [splitLines, glue, h]
  | cons c cs ih =>
    by_cases hc : c = '\n'
    · subst hc
      have h1 : splitLines ('\n' :: (cs ++ b)) = [] :: splitLines (cs ++ b) := by
        simp [splitLines]
      have h2 : splitLines ('\n' :: cs) = [] :: splitLines cs := by
        simp [splitLines]
      rcases hsp : splitLines cs with _ | ⟨y, ys⟩
      · exact absurd hsp (splitLines_ne_nil cs)
      · rw [List.cons_append, h1, ih, h2, hsp, List.dropLast_cons₂, getLastD_cons₂]
        simp
    · rcases hsp : splitLines cs with _ | ⟨y, ys⟩
      · exact absurd hsp (splitLines_ne_nil cs)
      rcases hspb : splitLines (cs ++ b) with _ | ⟨z, zs⟩
      · exact absurd hspb (splitLines_ne_nil _)
      have h1 : splitLines (c :: (cs ++ b)) = (c :: z) :: zs := by
        simp only [splitLines]
        rw [if_neg hc, hspb]
      have h2 : splitLines (c :: cs) = (c :: y) :: ys := by
        simp only [splitLines]
        rw [if_neg hc, hsp]
      rw [hsp, hspb] at ih
      rw [List.cons_append, h1, h2]
      rcases ys with _ | ⟨m, ms⟩
      · rcases hb : splitLines b with _ | ⟨w, ws⟩
        · exact absurd hb (splitLines_ne_nil b)
        rw [hb] at ih
        simp only [List.dropLast_single, List.getLastD_cons, List.getLastD_nil,
          List.nil_append, glue] at ih
        injection ih with hz hzs
        subst hz
        subst hzs
        simp [glue, hb]
      · rw [List.dropLast_cons₂, getLastD_cons₂, List.cons_append] at ih
        rw [List.dropLast_cons₂, getLastD_cons₂, List.cons_append]
        injection ih with hz hzs
        subst hz
        subst hzs
        rfl

theorem processLines_eq_trunc (p : List Char → Option SEvent) (lines : List (List Char)) :
    processLines p lines = truncAtTerminal (lines.filterMap (lineCB p)) := by
  induction lines with
  | nil => rfl
  | cons line rest ih =>
    rcases h : lineCB p line with _ | cb
    · rw [List.filterMap_cons_none h]
      simp only [processLines, h]
      exact ih
    · rw [List.filterMap_cons_some h]
      simp only [processLines, h, truncAtTerminal]
      by_cases ht : isTerminalCB cb
      · simp [ht]
      · simp [ht, ih]

theorem truncAtTerminal_append (xs ys : List CB) :
    truncAtTerminal (xs ++ ys) =
      if (truncAtTerminal xs).2 then truncAtTerminal xs
      else ((truncAtTerminal xs).1 ++ (truncAtTerminal ys).1, (truncAtTerminal ys).2) := by
  induction xs with
  | nil => simp [truncAtTerminal]
  | cons cb rest ih =>
    by_cases h : isTerminalCB cb
    · simp [truncAtTerminal, h]
    · simp only [List.cons_append, truncAtTerminal, h, Bool.false_eq_true, if_false]
      by_cases h2 : (truncAtTerminal rest).2
      · rw [if_pos h2] at ih
        simp [ih, h2]
      · rw [if_neg h2] at ih
        simp [ih, h2]

theorem processLines_append (p : List Char → Option SEvent) (xs ys : List (List Char)) :
    processLines p (xs ++ ys) =
      if (processLines p xs).2 then processLines p xs
      else ((processLines p xs).1 ++ (processLines p ys).1, (processLines p ys).2) := by
  rw [processLines_eq_trunc, processLines_eq_trunc, processLines_eq_trunc,
    List.filterMap_append, truncAtTerminal_append]

theorem runChunks_eq_processStream (p : List Char → Option SEvent) :
    ∀ (chunks : List (List Char)) (buffer : List Char), '\n' ∉ buffer →
      runChunks p buffer chunks = processStream p (buffer ++ chunks.flatten) := by
  intro chunks
  induction chunks with
  | nil =>
    intro buffer hb
    simp [runChunks, processStream, splitLines_eq_single hb, processLines]
  | cons c rest ih =>
    intro buffer hb
    have hlast : '\n' ∉ (splitLines (buffer ++ c)).getLastD [] :=
      mem_splitLines_no_newline (getLastD_mem (splitLines_ne_nil _) [])
    have hsingle : splitLines ((splitLines (buffer ++ c)).getLastD []) =
        [(splitLines (buffer ++ c)).getLastD []] := splitLines_eq_single hlast
    have key : (splitLines (buffer ++ c ++ rest.flatten)).dropLast =
        (splitLines (buffer ++ c)).dropLast ++
          (splitLines ((splitLines (buffer ++ c)).getLastD [] ++ rest.flatten)).dropLast := by
      rw [splitLines_append (buffer ++ c) rest.flatten,
        splitLines_append ((splitLines (buffer ++ c)).getLastD []) rest.flatten, hsingle]
      simp only [List.dropLast_single, List.getLastD_cons, List.getLastD_nil, List.nil_append]
      rw [List.dropLast_append,
        if_neg (by simp only [List.isEmpty_iff]; exact glue_ne_nil _ _)]
    simp only [runChunks, List.flatten_cons, ← List.append_assoc, processStream, key,
      processLines_append]
    rw [ih ((splitLines (buffer ++ c)).getLastD []) hlast]
    by_cases h2 : (processLines p (splitLines (buffer ++ c)).dropLast).2 <;>
      simp [h2, processStream]

theorem trunc_cases (l : List CB) :
    ((truncAtTerminal l).2 = false ∧
      ∀ cb ∈ (truncAtTerminal l).1, isTerminalCB cb = false) ∨
    ((truncAtTerminal l).2 = true ∧
      ∃ init t, (truncAtTerminal l).1 = init ++ [t] ∧ isTerminalCB t = true ∧
        ∀ cb ∈ init, isTerminalCB cb = false) := by
  induction l with
  | nil => exact Or.inl ⟨rfl, by simp [truncAtTerminal]⟩
  | cons cb rest ih =>
    by_cases h : isTerminalCB cb
    · refine Or.inr ⟨by simp [truncAtTerminal, h], [], cb, by simp [truncAtTerminal, h], h, by simp⟩
    · rcases ih with ⟨h2, hall⟩ | ⟨h2, init, t, heq, ht, hinit⟩
      · refine Or.inl ⟨by simp [truncAtTerminal, h, h2], ?_⟩
        intro x hx
        simp only [truncAtTerminal, h, Bool.false_eq_true, if_false] at hx
        rcases List.mem_cons.mp hx with rfl | hx2
        · simpa using h
        · exact hall x hx2
      · refine Or.inr ⟨by simp [truncAtTerminal, h, h2], cb :: init, t, ?_, ht, ?_⟩
        · simp [truncAtTerminal, h, heq]
        · intro x hx
          rcases List.mem_cons.mp hx with rfl | hx2
          · simpa using h
          · exact hinit x hx2

/-- C1: for every SSE byte stream consumed by `handleSSEStream` (any chunk
sequence and any parse function), the callback sequence is exactly the
decoded event stream truncated at its first `end`/`error` event: the
corresponding terminal callback (`onComplete`/`onError`) is the last
callback and occurs at most once overall; whenever the function returned
early the trace ends with exactly one terminal callback, everything before
it being non-terminal — and, by the shape of `CB`, every callback fired
comes from an event of type `token`, `sources`, `end` or `error`. -/
theorem sse_terminal_determinism (p : List Char → Option SEvent) (chunks : List (List Char)) :
    runChunks p [] chunks =
      truncAtTerminal (((splitLines chunks.flatten).dropLast).filterMap (lineCB p)) ∧
    (∀ cb ∈ (runChunks p [] chunks).1.dropLast, isTerminalCB cb = false) ∧
    (runChunks p [] chunks).1.countP isTerminalCB ≤ 1 ∧
    ((runChunks p [] chunks).2 = true →
      ∃ init t, (runChunks p [] chunks).1 = init ++ [t] ∧ isTerminalCB t = true ∧
        ∀ cb ∈ init, isTerminalCB cb = false) := by
  have h0 : runChunks p [] chunks = processStream p chunks.flatten := by
    simpa using runChunks_eq_processStream p chunks [] (by simp)
  have h1 : runChunks p [] chunks =
      truncAtTerminal (((splitLines chunks.flatten).dropLast).filterMap (lineCB p)) := by
    rw [h0, processStream, processLines_eq_trunc]
  refine ⟨h1, ?_, ?_, ?_⟩
  · rcases trunc_cases (((splitLines chunks.flatten).dropLast).filterMap (lineCB p)) with
      ⟨_, hall⟩ | ⟨_, init, t, heq, _, hinit⟩
    · intro cb hcb
      exact hall cb (List.dropLast_sublist _ |>.mem (h1 ▸ hcb))
    · intro cb hcb
      rw [h1, heq, List.dropLast_concat] at hcb
      exact hinit cb hcb
  · rcases trunc_cases (((splitLines chunks.flatten).dropLast).filterMap (lineCB p)) with
      ⟨_, hall⟩ | ⟨_, init, t, heq, ht, hinit⟩
    · rw [h1]
      have : ((truncAtTerminal (((splitLines chunks.flatten).dropLast).filterMap (lineCB p))).1).countP isTerminalCB = 0 :=
        List.countP_eq_zero.mpr (by intro a ha; simp [hall a ha])
      omega
    · rw [h1, heq, List.countP_append]
      have h2 : init.countP isTerminalCB = 0 :=
        List.countP_eq_zero.mpr (by intro a ha; simp [hinit a ha])
      simp [h2, ht]
  · intro hterm
    rcases trunc_cases (((splitLines chunks.flatten).dropLast).filterMap (lineCB p)) with
      ⟨h2, _⟩ | ⟨_, init, t, heq, ht, hinit⟩
    · rw [h1] at hterm
      rw [h2] at hterm
      exact absurd hterm (by simp)
    · exact ⟨init, t, by rw [h1, heq], ht, hinit⟩

/-- Witness for C1 at a concrete stream and the concrete wire-protocol
parse function. -/
theorem sse_terminal_determinism_witness :
    (runChunks parseEventJson [] [sseSampleStream]).1.countP isTerminalCB ≤ 1 ∧
    ((runChunks parseEventJson [] [sseSampleStream]).2 = true →
      ∃ init t, (runChunks parseEventJson [] [sseSampleStream]).1 = init ++ [t] ∧
        isTerminalCB t = true ∧ ∀ cb ∈ init, isTerminalCB cb = false) :=
  ⟨(sse_terminal_determinism parseEventJson [sseSampleStream]).2.2.1,
   (sse_terminal_determinism parseEventJson [sseSampleStream]).2.2.2⟩

/-- C8: `handleSSEStream` is chunking-invariant — any two partitions of the
same SSE byte stream into read chunks (including splits in the middle of a
`data: ` line) produce the same sequence of callback invocations, because
incomplete trailing lines are buffered and each complete line is processed
exactly once. -/
theorem sse_chunking_invariance (p : List Char → Option SEvent) (a b : List (List Char))
    (h : a.flatten = b.flatten) :
    (runChunks p [] a).1 = (runChunks p [] b).1 := by
  have ha := runChunks_eq_processStream p a [] (by simp)
  have hb := runChunks_eq_processStream p b [] (by simp)
  simp only [List.nil_append] at ha hb
  rw [ha, hb, h]

/-- Witness for C8: the sample stream delivered whole versus split in the
middle of its first `data: ` marker yields the same callback trace. -/
theorem sse_chunking_invariance_witness :
    ([sseSampleStream].flatten = [sseSampleStream.take 3, sseSampleStream.drop 3].flatten) ∧
    (runChunks parseEventJson [] [sseSampleStream]).1 =
      (runChunks parseEventJson [] [sseSampleStream.take 3, sseSampleStream.drop 3]).1 :=
  ⟨by simp, sse_chunking_invariance parseEventJson _ _ (by simp)⟩

/- ------------------------------------------------------------------ -/
/- Conversation turn lemmas and claims C2, C3                          -/
/- ------------------------------------------------------------------ -/

theorem tokensFold (aid : List Char) (toks : List (List Char)) : ∀ st : TurnState,
    ((toks.map CB.onToken).foldl (chatStep aid) st).aiContent = st.aiContent ++ toks.flatten ∧
    ((toks.map CB.onToken).foldl (chatStep aid) st).messages = st.messages ∧
    ((toks.map CB.onToken).foldl (chatStep aid) st).isStreaming = st.isStreaming ∧
    ((toks.map CB.onToken).foldl (chatStep aid) st).error = st.error := by
  induction toks with
  | nil => intro st; simp
  | cons t ts ih =>
    intro st
    simp only [List.map_cons, List.foldl_cons, List.flatten_cons]
    obtain ⟨h1, h2, h3, h4⟩ := ih (chatStep aid st (CB.onToken t))
    refine ⟨?_, ?_, ?_, ?_⟩
    · rw [h1]
      simp [chatStep, List.append_assoc]
    · rw [h2]
      simp [chatStep]
    · rw [h3]
      simp [chatStep]
    · rw [h4]
      simp [chatStep]

/-- C2: a conversation turn that completes with an `end` event after a
(possibly empty) sequence of `token` events appends to the conversation an
assistant message of sender `ai` whose content is the concatenation, in
arrival order, of the token contents — unless that concatenation is empty
after trimming, in which case no assistant message is appended. -/
theorem turn_end_appends_ai_message (ms : List UIMessage)
    (userMessageId aiMessageId content : List Char) (toks : List (List Char)) (endId : Int) :
    (handleSendMessageRun ms userMessageId aiMessageId content
        (toks.map CB.onToken ++ [CB.onComplete endId])).messages =
      (ms ++ [{ message_id := userMessageId, sender := Sender.user,
                content := content, metadata := none }]) ++
      (if jsTrim toks.flatten = [] then []
       else [{ message_id := aiMessageId, sender := Sender.ai,
               content := toks.flatten, metadata := none }]) := by
  unfold handleSendMessageRun
  rw [List.foldl_concat]
  obtain ⟨h1, h2, _, _⟩ := tokensFold aiMessageId toks
    { aiContent := []
      streamingContent := []
      isStreaming := true
      error := none
      messages := ms ++ [{ message_id := userMessageId, sender := Sender.user,
                           content := content, metadata := none }] }
  rw [List.nil_append] at h1
  by_cases ht : jsTrim toks.flatten = []
  · simp only [chatStep, h1, ht, ne_eq, not_true_eq_false, if_false]
    rw [h2]
    simp
  · simp only [chatStep, h1, ht, ne_eq, not_false_eq_true, if_true]
    rw [h2]
    simp

/-- C3: when generation is interrupted after token events `"The "` and
`"video "`, the client observes exactly both token callbacks followed by a
single terminal error callback, and the message list displayed for the
conversation retains the partial assistant answer with content exactly
`"The video "` and the `{ error: true }` metadata flag set. -/
theorem partial_stream_retained_with_error_flag :
    (runChunks parseEventJson [] [c3chunkA, c3chunkB]).1 =
      [CB.onToken ("The ".toList), CB.onToken ("video ".toList),
       CB.onError ("interrupted".toList)] ∧
    (runChunks parseEventJson [] [c3chunkA, c3chunkB]).2 = true ∧
    displayMessages
        (handleSendMessageRun [] ("u1".toList) ("a1".toList) ("Tell me".toList)
          (runChunks parseEventJson [] [c3chunkA, c3chunkB]).1) =
      [{ message_id := ("u1".toList), sender := Sender.user,
         content := ("Tell me".toList), metadata := none },
       { message_id := ("streaming-message".toList), sender := Sender.ai,
         content := ("The video ".toList), metadata := some true }] := by
  refine ⟨by decide, by decide, by decide⟩

/- ------------------------------------------------------------------ -/
/- Claim C4: history mapping                                           -/
/- ------------------------------------------------------------------ -/

/-- C4: the mapping applied by `loadMessages` to a history response
preserves the number and order of messages element-wise, maps role `human`
to sender `user` and every other role to sender `ai`, and leaves
`message_id`, `content`, `metadata` and `created_at` unchanged. -/
theorem history_mapping (μ : Type) (msgs : List (MessageResponse μ)) :
    (loadMessagesMap msgs).length = msgs.length ∧
    ∀ i (h : i < msgs.length) (h2 : i < (loadMessagesMap msgs).length),
      ((loadMessagesMap msgs).get ⟨i, h2⟩).message_id = (msgs.get ⟨i, h⟩).message_id ∧
      ((loadMessagesMap msgs).get ⟨i, h2⟩).content = (msgs.get ⟨i, h⟩).content ∧
      ((loadMessagesMap msgs).get ⟨i, h2⟩).metadata = (msgs.get ⟨i, h⟩).metadata ∧
      ((loadMessagesMap msgs).get ⟨i, h2⟩).created_at = (msgs.get ⟨i, h⟩).created_at ∧
      ((loadMessagesMap msgs).get ⟨i, h2⟩).sender =
        (if (msgs.get ⟨i, h⟩).role = ("human".toList) then Sender.user else Sender.ai) := by
  refine ⟨by simp [loadMessagesMap], ?_⟩
  intro i h h2
  simp [loadMessagesMap]

/-- Witness for C4 at a concrete two-message history response: the second
message has role `ai` and is mapped to sender `ai` with its fields intact. -/
theorem history_mapping_witness :
    ((loadMessagesMap hmsgs).get ⟨1, by decide⟩).sender = Sender.ai ∧
    ((loadMessagesMap hmsgs).get ⟨1, by decide⟩).metadata = some 3 :=
  ⟨(((history_mapping Nat hmsgs).2 1 (by decide) (by decide)).2.2.2.2).trans (by decide),
   (((history_mapping Nat hmsgs).2 1 (by decide) (by decide)).2.2.1).trans (by decide)⟩

/- ------------------------------------------------------------------ -/
/- Claim C5: per-conversation sequence numbers                         -/
/- ------------------------------------------------------------------ -/

theorem append_message_same (s : Store) (op : AppendOp) :
    (append_message s op) op.cid =
      s op.cid ++ [{ seq := (s op.cid).length, role := op.role, content := op.content }] := by
  simp [append_message]

theorem append_message_other (s : Store) (op : AppendOp) {c : List Char} (h : ¬ c = op.cid) :
    (append_message s op) c = s c := by
  simp [append_message, h]

theorem store_invariant (ops : List AppendOp) :
    ∀ s : Store, (∀ c, (s c).map (fun m => m.seq) = List.range (s c).length) →
      ∀ c, ((ops.foldl append_message s) c).map (fun m => m.seq) =
        List.range ((ops.foldl append_message s) c).length := by
  induction ops with
  | nil => intro s hs c; exact hs c
  | cons op rest ih =>
    intro s hs c
    rw [List.foldl_cons]
    refine ih (append_message s op) ?_ c
    intro c2
    by_cases hc : c2 = op.cid
    · subst hc
      rw [append_message_same, List.map_append, hs op.cid]
      simp [List.range_succ]
    · rw [append_message_other s op hc]
      exact hs c2

theorem store_length_count (ops : List AppendOp) :
    ∀ (s : Store) (c : List Char),
      ((ops.foldl append_message s) c).length =
        (s c).length + ops.countP (fun op => decide (op.cid = c)) := by
  induction ops with
  | nil => intro s c; simp
  | cons op rest ih =>
    intro s c
    rw [List.foldl_cons, ih (append_message s op) c, List.countP_cons]
    by_cases hc : op.cid = c
    · subst hc
      rw [append_message_same, List.length_append]
      simp only [List.length_singleton, decide_eq_true_eq]
      rw [if_pos trivial]
      omega
    · rw [append_message_other s op (fun hh => hc hh.symm)]
      simp only [decide_eq_true_eq]
      rw [if_neg hc]
      omega

/-- C5: after appending any number of messages (in any interleaving across
conversations), each conversation's stored messages carry sequence numbers
forming exactly `{0..N-1}` for its own count `N` of appends — monotonically
increasing, without gaps or duplicates — and sequence numbers are not
globally unique: any two nonempty conversations both contain sequence
number `0`. -/
theorem append_message_sequence_numbers :
    (∀ (ops : List AppendOp) (cid : List Char),
      ((applyOps ops) cid).map (fun m => m.seq) = List.range ((applyOps ops) cid).length ∧
      List.Pairwise (· < ·) (((applyOps ops) cid).map (fun m => m.seq)) ∧
      (((applyOps ops) cid).map (fun m => m.seq)).Nodup ∧
      ((applyOps ops) cid).length = ops.countP (fun op => decide (op.cid = cid))) ∧
    (∀ (ops : List AppendOp) (c1 c2 : List Char), c1 ≠ c2 →
      (applyOps ops) c1 ≠ [] → (applyOps ops) c2 ≠ [] →
      (∃ m ∈ (applyOps ops) c1, m.seq = 0) ∧ (∃ m ∈ (applyOps ops) c2, m.seq = 0)) := by
  have hrange : ∀ (ops : List AppendOp) (cid : List Char),
      ((applyOps ops) cid).map (fun m => m.seq) = List.range ((applyOps ops) cid).length :=
    fun ops cid => store_invariant ops emptyStore (by intro c; simp [emptyStore]) cid
  have hzero : ∀ (ops : List AppendOp) (c : List Char), (applyOps ops) c ≠ [] →
      ∃ m ∈ (applyOps ops) c, m.seq = 0 := by
    intro ops c hne
    have hlen : 0 < ((applyOps ops) c).length := List.length_pos.mpr hne
    have h0 : (0 : ℕ) ∈ ((applyOps ops) c).map (fun m => m.seq) := by
      rw [hrange ops c]
      exact List.mem_range.mpr hlen
    obtain ⟨m, hm, hseq⟩ := List.mem_map.mp h0
    exact ⟨m, hm, hseq⟩
  refine ⟨?_, ?_⟩
  · intro ops cid
    refine ⟨hrange ops cid, ?_, ?_, ?_⟩
    · rw [hrange ops cid]
      exact List.pairwise_lt_range _
    · rw [hrange ops cid]
      exact List.nodup_range _
    · simpa [applyOps, emptyStore] using store_length_count ops emptyStore cid
  · intro ops c1 c2 _ h1 h2
    exact ⟨hzero ops c1 h1, hzero ops c2 h2⟩

/-- Witness for C5: in a concrete interleaving over conversations `a` and
`b`, both conversations contain a message with sequence number `0`. -/
theorem append_message_sequence_numbers_witness :
    (∃ m ∈ (applyOps opsSample) ("a".toList), m.seq = 0) ∧
    (∃ m ∈ (applyOps opsSample) ("b".toList), m.seq = 0) :=
  append_message_sequence_numbers.2 opsSample ("a".toList) ("b".toList)
    (by decide) (by decide) (by decide)

/- ------------------------------------------------------------------ -/
/- Claim C6: retrieval ranking                                         -/
/- ------------------------------------------------------------------ -/

/-- C6: the Vector Retriever returns at most `k` fragments (default
`k = 5`), ordered by descending cosine similarity, with ties at equal
similarity broken by ascending `chunk_index`, and returns only fragments of
its input. -/
theorem retriever_topk_ordering (k : Nat) (frags : List ScoredFrag) :
    (retrieveTopK k frags).length ≤ k ∧
    List.Pairwise
      (fun a b => b.score < a.score ∨ (a.score = b.score ∧ a.chunk_index ≤ b.chunk_index))
      (retrieveTopK k frags) ∧
    (∀ f ∈ retrieveTopK k frags, f ∈ frags) ∧
    retrieveDefault frags = retrieveTopK 5 frags := by
  refine ⟨List.length_take_le _ _, ?_, ?_, rfl⟩
  · have hs : List.Pairwise rankR (List.insertionSort rankR frags) :=
      List.sorted_insertionSort rankR frags
    exact List.Pairwise.sublist (List.take_sublist _ _) hs
  · intro f hf
    exact (List.perm_insertionSort rankR frags).mem_iff.mp
      ((List.take_sublist _ _).subset hf)

/-- Witness for C6 at a concrete fragment list with a similarity tie: the
tied fragments appear in ascending `chunk_index` order. -/
theorem retriever_topk_ordering_witness :
    (retrieveTopK 5 fragsSample).length ≤ 5 ∧
    (∀ f ∈ retrieveTopK 5 fragsSample, f ∈ fragsSample) ∧
    retrieveDefault fragsSample =
      [{ chunk_index := 2, score := 2 }, { chunk_index := 3, score := 2 },
       { chunk_index := 0, score := 1 }, { chunk_index := 1, score := 1 }] :=
  ⟨(retriever_topk_ordering 5 fragsSample).1,
   (retriever_topk_ordering 5 fragsSample).2.2.1,
   by decide⟩

/- ------------------------------------------------------------------ -/
/- Claim C7: error message mapping                                     -/
/- ------------------------------------------------------------------ -/

/-- Counterexample for C7: an `ApiError` with a status code outside the
switch (here 503) surfaces its raw internal message, which is not one of the
fixed messages of the `errorMessages` table. -/
theorem getErrorMessage_raw_counterexample :
    getErrorMessage
        (JsError.apiError ("ECONNRESET upstream at 10.0.0.3".toList) (some 503)) =
      ("ECONNRESET upstream at 10.0.0.3".toList) ∧
    ("ECONNRESET upstream at 10.0.0.3".toList) ∉ errorMessagesList :=
  ⟨by decide, by decide⟩

/-- C7 (amended): every `ApiError` with status code 400, 404, 413, 422, 429
or 500 maps to the corresponding fixed message of the `errorMessages` table,
regardless of its internal message; errors outside this table may surface
their own message. -/
theorem getErrorMessage_status_table (m : List Char) :
    getErrorMessage (JsError.apiError m (some 400)) = invalidUrlMsg ∧
    getErrorMessage (JsError.apiError m (some 404)) = threadNotFoundMsg ∧
    getErrorMessage (JsError.apiError m (some 413)) = videoTooLongMsg ∧
    getErrorMessage (JsError.apiError m (some 422)) = noTranscriptMsg ∧
    getErrorMessage (JsError.apiError m (some 429)) = rateLimitedMsg ∧
    getErrorMessage (JsError.apiError m (some 500)) = processingFailedMsg ∧
    [invalidUrlMsg, threadNotFoundMsg, videoTooLongMsg, noTranscriptMsg,
      rateLimitedMsg, processingFailedMsg].all (fun x => x ∈ errorMessagesList) := by
  refine ⟨rfl, rfl, rfl, rfl, rfl, rfl, by decide⟩

/- ------------------------------------------------------------------ -/
/- Claim C9: chat reducer invariants                                   -/
/- ------------------------------------------------------------------ -/

/-- Counterexample for C9: a `SET_THREADS` action carrying a duplicated
thread id is applied verbatim by `chatReducer`, so the claimed no-duplicates
invariant over all action sequences fails. -/
theorem chatReducer_duplicate_counterexample :
    ¬ (((chatReducer initialChatState
          (ChatAction.SET_THREADS [thSample, thSample])).threads.map
        (fun t => t.thread_id)).Nodup) := by
  decide

theorem chatReducer_preserves_nodup (s : ChatState) (a : ChatAction)
    (hs : (s.threads.map (fun t => t.thread_id)).Nodup)
    (ha : ∀ ts, a = ChatAction.SET_THREADS ts → (ts.map (fun t => t.thread_id)).Nodup) :
    ((chatReducer s a).threads.map (fun t => t.thread_id)).Nodup := by
  cases a with
  | SET_ACTIVE_THREAD tid => simpa [chatReducer] using hs
  | ADD_THREAD th =>
    by_cases h : s.threads.any (fun t => t.thread_id = th.thread_id) = true
    · simpa [chatReducer, h] using hs
    · simp only [chatReducer, h, Bool.false_eq_true, if_false, List.map_cons, List.nodup_cons]
      refine ⟨?_, hs⟩
      intro hmem
      obtain ⟨t, ht, heq⟩ := List.mem_map.mp hmem
      exact h (List.any_eq_true.mpr ⟨t, ht, by simp [heq]⟩)
  | REMOVE_THREAD tid =>
    simp only [chatReducer]
    exact List.Nodup.sublist (List.Sublist.map _ (List.filter_sublist s.threads)) hs
  | TOGGLE_SIDEBAR => simpa [chatReducer] using hs
  | SET_SIDEBAR_OPEN b => simpa [chatReducer] using hs
  | SET_PROCESSING b => simpa [chatReducer] using hs
  | SET_THREADS ts => simpa [chatReducer] using ha ts rfl

theorem foldl_reducer_nodup : ∀ (acts : List ChatAction) (s : ChatState),
    (s.threads.map (fun t => t.thread_id)).Nodup →
    (∀ ts, ChatAction.SET_THREADS ts ∈ acts → (ts.map (fun t => t.thread_id)).Nodup) →
    ((acts.foldl chatReducer s).threads.map (fun t => t.thread_id)).Nodup := by
  intro acts
  induction acts with
  | nil => intro s hs _; simpa using hs
  | cons a rest ih =>
    intro s hs hg
    rw [List.foldl_cons]
    refine ih (chatReducer s a) (chatReducer_preserves_nodup s a hs ?_) ?_
    · intro ts hts
      exact hg ts (by rw [hts]; exact List.mem_cons_self _ _)
    · intro ts hts
      exact hg ts (List.mem_cons_of_mem _ hts)

/-- C9 (amended): for every action sequence from the initial state in which
each `SET_THREADS` payload is itself free of duplicate thread ids, the
resulting threads list contains no two entries with the same thread id
(`ADD_THREAD` being a no-op on duplicates), and immediately after
`REMOVE_THREAD t` no thread with id `t` remains while `activeThreadId` is
reset to `null` exactly when it pointed at `t`. Without the `SET_THREADS`
proviso the no-duplicates part is refuted by the counterexample. -/
theorem chatReducer_invariants :
    (∀ (acts : List ChatAction),
      (∀ ts, ChatAction.SET_THREADS ts ∈ acts → (ts.map (fun t => t.thread_id)).Nodup) →
      ((acts.foldl chatReducer initialChatState).threads.map (fun t => t.thread_id)).Nodup) ∧
    (∀ (s : ChatState) (tid : List Char),
      (∀ t ∈ (chatReducer s (ChatAction.REMOVE_THREAD tid)).threads, t.thread_id ≠ tid) ∧
      (chatReducer s (ChatAction.REMOVE_THREAD tid)).activeThreadId ≠ some tid ∧
      (s.activeThreadId = some tid →
        (chatReducer s (ChatAction.REMOVE_THREAD tid)).activeThreadId = none) ∧
      (s.activeThreadId ≠ some tid →
        (chatReducer s (ChatAction.REMOVE_THREAD tid)).activeThreadId = s.activeThreadId)) ∧
    (∀ (s : ChatState) (th : Thread),
      (∃ t ∈ s.threads, t.thread_id = th.thread_id) →
      chatReducer s (ChatAction.ADD_THREAD th) = s) := by
  refine ⟨?_, ?_, ?_⟩
  · intro acts hg
    exact foldl_reducer_nodup acts initialChatState (by simp [initialChatState]) hg
  · intro s tid
    refine ⟨?_, ?_, ?_, ?_⟩
    · intro t ht
      simp only [chatReducer] at ht
      have := (List.mem_filter.mp ht).2
      simpa using this
    · simp only [chatReducer]
      by_cases h : s.activeThreadId = some tid
      · rw [if_pos h]
        simp
      · rw [if_neg h]
        exact h
    · intro h
      simp only [chatReducer]
      rw [if_pos h]
    · intro h
      simp only [chatReducer]
      rw [if_neg h]
  · intro s th ⟨t, ht, heq⟩
    have h : s.threads.any (fun t => t.thread_id = th.thread_id) = true :=
      List.any_eq_true.mpr ⟨t, ht, by simp [heq]⟩
    simp [chatReducer, h]

/-- Witness for C9 at a concrete action sequence without `SET_THREADS`
duplicates and a concrete removal. -/
theorem chatReducer_invariants_witness :
    ((([ChatAction.ADD_THREAD thSample, ChatAction.ADD_THREAD thSample,
        ChatAction.REMOVE_THREAD ("x".toList)]).foldl chatReducer
          initialChatState).threads.map (fun t => t.thread_id)).Nodup ∧
    (chatReducer (ChatState.mk [thSample] (some ("t1".toList)) false false)
      (ChatAction.REMOVE_THREAD ("t1".toList))).activeThreadId ≠ some ("t1".toList) :=
  ⟨chatReducer_invariants.1 _ (by intro ts hts; simp at hts),
   (chatReducer_invariants.2.1 _ _).2.1⟩

/- ------------------------------------------------------------------ -/
/- Claim C10: YouTube URL validation and id extraction                 -/
/- ------------------------------------------------------------------ -/

theorem extract_some_props : ∀ (l vid : List Char), extractVideoId l = some vid →
    vid ≠ [] ∧ ∀ c ∈ vid, isWordDash c = true := by
  intro l
  induction l with
  | nil =>
    intro vid h
    exact absurd h (by simp [extractVideoId])
  | cons c cs ih =>
    intro vid h
    rcases hm : markerAt (c :: cs) with _ | rest
    · simp only [extractVideoId, hm] at h
      exact ih vid h
    · simp only [extractVideoId, hm] at h
      by_cases hv : rest.takeWhile isWordDash = []
      · rw [if_pos hv] at h
        exact ih vid h
      · rw [if_neg hv] at h
        injection h with h2
        subst h2
        exact ⟨hv, fun x hx => List.mem_takeWhile_imp hx⟩

theorem extract_found : ∀ (n : Nat) (l rest : List Char),
    markerAt (l.drop n) = some rest → rest.takeWhile isWordDash ≠ [] →
    ∃ vid, extractVideoId l = some vid := by
  intro n
  induction n with
  | zero =>
    intro l rest hm hne
    rcases l with _ | ⟨c, cs⟩
    · rw [List.drop_nil] at hm
      rw [show markerAt ([] : List Char) = none from by decide] at hm
      exact Option.noConfusion hm
    · rw [List.drop_zero] at hm
      refine ⟨rest.takeWhile isWordDash, ?_⟩
      simp only [extractVideoId, hm]
      rw [if_neg hne]
  | succ n ih =>
    intro l rest hm hne
    rcases l with _ | ⟨c, cs⟩
    · rw [List.drop_nil] at hm
      rw [show markerAt ([] : List Char) = none from by decide] at hm
      exact Option.noConfusion hm
    · rw [List.drop_succ_cons] at hm
      obtain ⟨vid, hvid⟩ := ih cs rest hm hne
      rcases hm2 : markerAt (c :: cs) with _ | rest2
      · exact ⟨vid, by simp only [extractVideoId, hm2]; exact hvid⟩
      · by_cases hv2 : rest2.takeWhile isWordDash = []
        · refine ⟨vid, ?_⟩
          simp only [extractVideoId, hm2]
          rw [if_pos hv2]
          exact hvid
        · exact ⟨rest2.takeWhile isWordDash,
            by simp only [extractVideoId, hm2]; rw [if_neg hv2]⟩

theorem extract_some_found : ∀ (l vid : List Char), extractVideoId l = some vid →
    ∃ (k : Nat) (rest : List Char),
      markerAt (l.drop k) = some rest ∧ rest.takeWhile isWordDash ≠ [] := by
  intro l
  induction l with
  | nil =>
    intro vid h
    exact absurd h (by simp [extractVideoId])
  | cons c cs ih =>
    intro vid h
    rcases hm : markerAt (c :: cs) with _ | rest
    · simp only [extractVideoId, hm] at h
      obtain ⟨k, r, h1, h2⟩ := ih vid h
      exact ⟨k + 1, r, by rwa [List.drop_succ_cons], h2⟩
    · simp only [extractVideoId, hm] at h
      by_cases hv : rest.takeWhile isWordDash = []
      · rw [if_pos hv] at h
        obtain ⟨k, r, h1, h2⟩ := ih vid h
        exact ⟨k + 1, r, by rwa [List.drop_succ_cons], h2⟩
      · exact ⟨0, rest, by rwa [List.drop_zero], hv⟩

theorem valid_leaf (url : List Char) (k : Nat)
    (h : (match markerAt (url.drop k) with
          | some (c :: _) => isWordDash c
          | some [] => false
          | none => false) = true) :
    ∃ vid, extractVideoId url = some vid := by
  rcases hm : markerAt (url.drop k) with _ | rest
  · rw [hm] at h
    exact absurd h (by simp)
  · rcases rest with _ | ⟨c, rs⟩
    · rw [hm] at h
      exact absurd h (by simp)
    · rw [hm] at h
      have hc : isWordDash c = true := h
      refine extract_found k url (c :: rs) hm ?_
      rw [List.takeWhile_cons_of_pos hc]
      simp

/-- C10: whenever `isValidYouTubeUrl` accepts a url, `extractVideoId`
returns a nonempty video id consisting only of word characters and hyphens;
and `extractVideoId` (a total function) returns `null` exactly when no
occurrence of a supported marker (`youtube.com/watch?v=`, `youtu.be/`,
`youtube.com/embed/`) is followed by at least one `[\w-]` character. -/
theorem extractVideoId_of_valid_url (url : List Char) :
    (isValidYouTubeUrl url = true →
      ∃ vid, extractVideoId url = some vid ∧ vid ≠ [] ∧ ∀ c ∈ vid, isWordDash c = true) ∧
    (extractVideoId url = none ↔
      ∀ (k : Nat) (rest : List Char), markerAt (url.drop k) = some rest →
        rest.takeWhile isWordDash = []) := by
  constructor
  · intro h
    have main : ∃ vid, extractVideoId url = some vid := by
      unfold isValidYouTubeUrl at h
      dsimp only at h
      by_cases h1 : ("https://".toList).isPrefixOf url = true
      · rw [if_pos h1] at h
        by_cases h2 : ("www.".toList).isPrefixOf (url.drop 8) = true
        · rw [if_pos h2, List.drop_drop] at h
          exact valid_leaf url (8 + 4) h
        · rw [if_neg h2] at h
          exact valid_leaf url 8 h
      · rw [if_neg h1] at h
        by_cases h1b : ("http://".toList).isPrefixOf url = true
        · rw [if_pos h1b] at h
          by_cases h2 : ("www.".toList).isPrefixOf (url.drop 7) = true
          · rw [if_pos h2, List.drop_drop] at h
            exact valid_leaf url (7 + 4) h
          · rw [if_neg h2] at h
            exact valid_leaf url 7 h
        · rw [if_neg h1b] at h
          by_cases h2 : ("www.".toList).isPrefixOf url = true
          · rw [if_pos h2] at h
            rw [show url.drop 4 = (url.drop 0).drop 4 from by rw [List.drop_zero],
              List.drop_drop] at h
            exact valid_leaf url (0 + 4) h
          · rw [if_neg h2] at h
            rw [show url = url.drop 0 from (List.drop_zero url).symm] at h
            exact valid_leaf url 0 h
    obtain ⟨vid, hvid⟩ := main
    obtain ⟨hne, hall⟩ := extract_some_props url vid hvid
    exact ⟨vid, hvid, hne, hall⟩
  · constructor
    · intro h k rest hm
      by_contra hne
      obtain ⟨vid, hvid⟩ := extract_found k url rest hm hne
      rw [h] at hvid
      exact Option.noConfusion hvid
    · intro h
      rcases he : extractVideoId url with _ | vid
      · rfl
      · obtain ⟨k, r, h1, h2⟩ := extract_some_found url vid he
        exact absurd (h k r h1) h2

/-- Witness for C10 at a concrete valid watch url. -/
theorem extractVideoId_of_valid_url_witness :
    isValidYouTubeUrl ("https://www.youtube.com/watch?v=dQw4w9WgXcQ".toList) = true ∧
    ∃ vid, extractVideoId ("https://www.youtube.com/watch?v=dQw4w9WgXcQ".toList) = some vid ∧
      vid ≠ [] ∧ ∀ c ∈ vid, isWordDash c = true :=
  ⟨by decide,
   (extractVideoId_of_valid_url ("https://www.youtube.com/watch?v=dQw4w9WgXcQ".toList)).1
     (by decide)⟩
